import Mathlib

/-!
Shallow embedding of the scheduling / resource-budgeting / caching core of
`intern/cycles/device/device_opencl.cpp` (Blender Cycles OpenCL device layer),
together with theorems settling the frozen claims about it.

Conventions of the embedding:
* `size_t` values are `Nat` with explicit wraparound modulo `2 ^ 64` where the
  source can underflow (`sub64`); `unsigned int` values use modulo `2 ^ 32`.
* C++ `int` arithmetic is embedded as `Int` with `Int.tdiv`
  (truncation toward zero) where a negative intermediate value is reachable;
  in contexts where every intermediate value is nonnegative it is embedded
  as `Nat` (truncated `Nat` subtraction then agrees with the source because
  the subtrahend never exceeds the minuend there, and the single expression
  `(v - 1) / g + 1` agrees at `v = 0` for `g = 64` as well).
* Opaque device-side quantities (buffer sizes returned by the driver, the
  contents the GPU writes into the ray-state array, success of OpenCL API
  calls) are universally quantified parameters of the definitions.
-/

namespace DeviceOpenCL

/-! ## Constants (lines 50-66 of the source) -/

def SPLIT_KERNEL_LOCAL_SIZE_X : Nat := 64

def SPLIT_KERNEL_LOCAL_SIZE_Y : Nat := 1

def PATH_ITER_INC_FACTOR : Nat := 8

/-- 5MB safety margin (`DATA_ALLOCATION_MEM_FACTOR`). -/
def DATA_ALLOCATION_MEM_FACTOR : Nat := 5000000

/-- `2 ^ 64`, the modulus of `size_t` arithmetic. -/
def U64 : Nat := 2 ^ 64

/-- `2 ^ 32`, the modulus of `unsigned int` arithmetic. -/
def U32 : Nat := 2 ^ 32

/-- `size_t` subtraction `a - b` (wraps modulo `2 ^ 64`); faithful for
operands below `2 ^ 64`. -/
def sub64 (a b : Nat) : Nat := (a + U64 - b) % U64

/-- `unsigned int` subtraction `a - b` (wraps modulo `2 ^ 32`); faithful for
operands below `2 ^ 32`. -/
def sub32 (a b : Nat) : Nat := (a + U32 - b) % U32

/-! ## Memory Budget Calculator

`get_feasible_global_work_size` (lines 2750-2770) subtracts the invariable,
tile-specific and scene-specific allocations and the fixed safety margin from
`total_allocatable_memory` (all `size_t`, so each subtraction wraps), then
divides by `get_per_thread_memory()`.  The four component sizes are sums of
opaque driver-reported and `sizeof`-derived quantities, so they enter the
embedding as parameters. -/

/-- The subtraction/division chain of `get_feasible_global_work_size`, with
the safety margin as an explicit argument. -/
def feasible_work_size_formula (total inv tile scene margin per : Nat) : Nat :=
  sub64 (sub64 (sub64 (sub64 total inv) tile) scene) margin / per

/-- `get_feasible_global_work_size`: the formula with the source's fixed
safety margin `DATA_ALLOCATION_MEM_FACTOR`. -/
def get_feasible_global_work_size (total inv tile scene per : Nat) : Nat :=
  feasible_work_size_formula total inv tile scene DATA_ALLOCATION_MEM_FACTOR per

/-! ## `get_max_render_feasible_tile_size` (lines 2793-2815)

`square_root_val = (int)sqrt(feasible_global_work_size)` is embedded as the
exact integer square root `Nat.sqrt`, and the `int` arithmetic as unbounded
`Int` (with `Int.tdiv`, C++ truncated division, because
`square_root_val - 1` is `-1` when the argument is `0`).  Both embeddings
are exact only on a bounded range: the correctly rounded `double` square
root can exceed the integer square root once the argument passes `2 ^ 52`
(at `(2 ^ 26 + 64) ^ 2 - 1` it returns `2 ^ 26 + 64`, one above the integer
root), and the ceil-branch guard's `int` product overflows — undefined
behaviour — once it passes `2 ^ 31 - 1`.  Arguments up to `2 ^ 30` keep the
square root exact and every intermediate product within `int` range, and
the theorems about this function confine themselves to such arguments. -/

def get_max_render_feasible_tile_size (feasible_global_work_size : Nat) :
    Int × Int :=
  -- the literals 64 and 1 are SPLIT_KERNEL_LOCAL_SIZE_X and _Y
  let square_root_val : Int := (Nat.sqrt feasible_global_work_size : Int)
  let ceil_x : Int := ((square_root_val - 1).tdiv 64 + 1) * 64
  let ceil_y : Int := ((square_root_val - 1).tdiv 1 + 1) * 1
  if ceil_x * ceil_y ≤ (feasible_global_work_size : Int) then
    (ceil_x, ceil_y)
  else
    (square_root_val.tdiv 64 * 64, square_root_val.tdiv 1 * 1)

/-- `need_to_split_tile` (lines 2776-2787): the ceil-rounded `size_t`
estimate of the tile's work-item grid is compared against
`max_render_feasible_tile_size.x * max_render_feasible_tile_size.y`
(an `int` product; embedded exactly, which is faithful whenever that
product does not overflow `int`). `d_w`, `d_h` are `unsigned int`; the
claims only concern positive extents, where `Nat` subtraction agrees. -/
def need_to_split_tile (d_w d_h : Nat) (max_render_feasible_tile_size : Int × Int) :
    Bool :=
  let gx : Nat := ((d_w - 1) / SPLIT_KERNEL_LOCAL_SIZE_X + 1) * SPLIT_KERNEL_LOCAL_SIZE_X
  let gy : Nat := ((d_h - 1) / SPLIT_KERNEL_LOCAL_SIZE_Y + 1) * SPLIT_KERNEL_LOCAL_SIZE_Y
  decide ((max_render_feasible_tile_size.1 * max_render_feasible_tile_size.2 : Int)
    < ((gx * gy : Nat) : Int))

/-! ## Tile Splitter: `get_split_tile_size` (lines 2818-2843) -/

/-- Ceil round-off to the 64-wide X dispatch granularity, the C expression
`(((v - 1) / SPLIT_KERNEL_LOCAL_SIZE_X) + 1) * SPLIT_KERNEL_LOCAL_SIZE_X`
(`Nat` subtraction agrees with the `int` source for every `v`, including
`v = 0`, where both give 64). -/
def round_up_x (v : Nat) : Nat :=
  ((v - 1) / SPLIT_KERNEL_LOCAL_SIZE_X + 1) * SPLIT_KERNEL_LOCAL_SIZE_X

/-- Ceil round-off to the Y dispatch granularity 1:
`(((v - 1) / SPLIT_KERNEL_LOCAL_SIZE_Y) + 1) * SPLIT_KERNEL_LOCAL_SIZE_Y`
(agrees with the `int` source for `v ≥ 1`, the only values it is applied to). -/
def round_up_y (v : Nat) : Nat :=
  ((v - 1) / SPLIT_KERNEL_LOCAL_SIZE_Y + 1) * SPLIT_KERNEL_LOCAL_SIZE_Y

/-- The `while (d_w * d_h > num_global_threads)` halving loop of
`get_split_tile_size`: halve the longer dimension and re-round it to its
granularity.  Explicit fuel; `none` means the fuel ran out (the source loop
is still running at that point). -/
def split_tile_size_loop : Nat → Nat → Nat → Nat → Option (Nat × Nat)
  | 0, _, _, _ => none
  | fuel + 1, num_global_threads, d_w, d_h =>
    if num_global_threads < d_w * d_h then
      if d_h ≤ d_w then
        split_tile_size_loop fuel num_global_threads (round_up_x (d_w / 2)) d_h
      else
        split_tile_size_loop fuel num_global_threads d_w (round_up_y (d_h / 2))
    else
      some (d_w, d_h)

/-- `get_split_tile_size`: ceil round-off the requested extent to dispatch
granularity, then run the halving loop against the work-item budget
`num_global_threads = max_render_feasible_tile_size.x * .y`. -/
def get_split_tile_size (w h num_global_threads fuel : Nat) : Option (Nat × Nat) :=
  split_tile_size_loop fuel num_global_threads (round_up_x w) (round_up_y h)

/-! ## Tile Splitter: `split_tiles` (lines 2845-2896) -/

/-- A `RenderTile`, with the fields `split_tiles` reads and writes.  Buffer
handles (`buffers`, `buffer`, `rng_state`) are opaque, represented by
`Nat`; the numeric fields are the nonnegative values the claims concern,
as `Nat` (`tile_size` is its two `int2` components). -/
structure RenderTile where
  x : Nat
  y : Nat
  w : Nat
  h : Nat
  start_sample : Nat
  num_samples : Nat
  sample : Nat
  resolution : Nat
  offset : Nat
  stride : Nat
  tile_size_x : Nat
  tile_size_y : Nat
  buffers : Nat
  buffer : Nat
  rng_state : Nat
  buffer_offset_x : Nat
  buffer_offset_y : Nat
  rng_state_offset_x : Nat
  rng_state_offset_y : Nat
  buffer_rng_state_stride : Nat
deriving DecidableEq, Repr

/-- `num_tiles_x` of `split_tiles` (line 2852). -/
def num_tiles_x (rtile : RenderTile) (split_tile_size_x : Nat) : Nat :=
  (rtile.w - 1) / split_tile_size_x + 1

/-- `num_tiles_y` of `split_tiles` (line 2853). -/
def num_tiles_y (rtile : RenderTile) (split_tile_size_y : Nat) : Nat :=
  (rtile.h - 1) / split_tile_size_y + 1

/-- The sub-tile `split_tiles` writes at index
`rtile_index = tile_iter_y * num_tiles_x + tile_iter_x`
(lines 2863-2893): offset bookkeeping copied or shifted by whole strips,
extent `split_tile_size` except on the last column/row, where it is shrunk
to the remainder `d_w - tile_iter_x * split_tile_size.x` (resp. height). -/
def split_sub_tile (rtile : RenderTile) (sx sy tile_iter_x tile_iter_y : Nat) :
    RenderTile :=
  let d_w := rtile.w
  let d_h := rtile.h
  let offset_index := rtile.offset + (rtile.x + rtile.y * rtile.stride)
  let offset_x := offset_index % rtile.stride
  let offset_y := offset_index / rtile.stride
  { rng_state_offset_x := offset_x + tile_iter_x * sx
    rng_state_offset_y := offset_y + tile_iter_y * sy
    buffer_offset_x := offset_x + tile_iter_x * sx
    buffer_offset_y := offset_y + tile_iter_y * sy
    start_sample := rtile.start_sample
    num_samples := rtile.num_samples
    sample := rtile.sample
    resolution := rtile.resolution
    offset := rtile.offset
    tile_size_x := rtile.tile_size_x
    tile_size_y := rtile.tile_size_y
    buffers := rtile.buffers
    buffer := rtile.buffer
    rng_state := rtile.rng_state
    x := rtile.x + tile_iter_x * sx
    y := rtile.y + tile_iter_y * sy
    buffer_rng_state_stride := rtile.stride
    w := if tile_iter_x = num_tiles_x rtile sx - 1 then d_w - tile_iter_x * sx else sx
    h := if tile_iter_y = num_tiles_y rtile sy - 1 then d_h - tile_iter_y * sy else sy
    stride := if tile_iter_x = num_tiles_x rtile sx - 1 then d_w - tile_iter_x * sx else sx }

/-- `split_tiles` (lines 2846-2896): the vector is resized to
`num_tiles_x * num_tiles_y` and the double loop fills index
`rtile_index = tile_iter_y * num_tiles_x + tile_iter_x`; equivalently,
entry `i` is the sub-tile at column `i % num_tiles_x` and row
`i / num_tiles_x`. -/
def split_tiles (rtile : RenderTile) (sx sy : Nat) : List RenderTile :=
  (List.range (num_tiles_x rtile sx * num_tiles_y rtile sy)).map
    (fun i => split_sub_tile rtile sx sy (i % num_tiles_x rtile sx)
      (i / num_tiles_x rtile sx))

/-- Pixel (px, py) lies in the rectangle of tile `t`. -/
def tile_contains (t : RenderTile) (px py : Nat) : Prop :=
  t.x ≤ px ∧ px < t.x + t.w ∧ t.y ≤ py ∧ py < t.y + t.h

instance (t : RenderTile) (px py : Nat) : Decidable (tile_contains t px py) := by
  unfold tile_contains
  exact inferInstance

/-- The spec's example tile: 130×130, here at origin (7, 9). -/
def example_tile : RenderTile :=
  ⟨7, 9, 130, 130, 0, 4, 0, 1, 0, 130, 130, 130, 0, 0, 0, 0, 0, 0, 0, 130⟩

/-! ## Wavefront Pipeline Scheduler: `path_trace` (lines 2571-2649)

The device-side pipeline stages are opaque compute programs; what the
scheduler observes is the host copy of the ray-state array produced by the
blocking `clEnqueueReadBuffer` each polling round.  Those snapshots enter
the embedding as a parameter `polls : Nat → List Int` (`polls r` is the
array read back at the `r`-th poll). -/

/-- The ray-state value the scan compares against.  `RAY_INACTIVE` is
declared in the external kernel headers (`kernel_types.h`), not in this
translation unit; only equality against it matters to the scheduler, so it
is represented by `0`. -/
def RAY_INACTIVE : Int := 0

/-- The host-side scan of `hostRayStateArray` (lines 2601-2609):
`activeRaysAvailable` ends up `true` iff some entry differs from
`RAY_INACTIVE` (the early `break` merely shortcuts the scan). -/
def active_rays_available (hostRayStateArray : List Int) : Bool :=
  hostRayStateArray.any (fun s => decide (s ≠ RAY_INACTIVE))

/-- Observable outcome of the `while(activeRaysAvailable)` loop: the poll
round at which it exited, the sizes of the dispatched blocks (the value of
`PathIteration_times` governing each block of pipeline rounds, in order),
and the final `numNextPathIterTimes` / `numHostIntervention` counters. -/
structure PathTraceLoopResult where
  exit_round : Nat
  block_sizes : List Nat
  numNextPathIterTimes : Nat
  numHostIntervention : Nat
deriving DecidableEq, Repr

/-- The `while(activeRaysAvailable)` loop of `path_trace` (lines
2578-2622).  Each iteration dispatches `pathIterationTimes` rounds of the
nine-kernel stage sequence (device-side, opaque), reads the ray state back,
and either exits — all rays `RAY_INACTIVE` — or records a host
intervention: `numHostIntervention++`, the next block is set to
`PATH_ITER_INC_FACTOR` rounds, and `numNextPathIterTimes` grows by
`PATH_ITER_INC_FACTOR` (`unsigned int` arithmetic, modulo `2 ^ 32`).
Fuel-indexed; `none` means the source loop is still running. -/
def path_trace_loop (polls : Nat → List Int) :
    Nat → Nat → Nat → Nat → Nat → List Nat → Option PathTraceLoopResult
  | 0, _, _, _, _, _ => none
  | fuel + 1, round, pathIterationTimes, numNext, numInt, blocks =>
    if active_rays_available (polls round) then
      path_trace_loop polls fuel (round + 1) PATH_ITER_INC_FACTOR
        ((numNext + PATH_ITER_INC_FACTOR) % U32) ((numInt + 1) % U32)
        (blocks ++ [pathIterationTimes])
    else
      some ⟨round, blocks ++ [pathIterationTimes], numNext, numInt⟩

/-- The post-loop adoption of the next tile's `PathIteration_times`
(lines 2633-2646); `unsigned int` arithmetic, where `x <= 0` holds exactly
when `x == 0`. -/
def adopt_next_path_iteration_times (numNextPathIterTimes numHostIntervention : Nat) :
    Nat :=
  if numHostIntervention = 0 then
    if sub32 numNextPathIterTimes PATH_ITER_INC_FACTOR = 0 then
      PATH_ITER_INC_FACTOR
    else
      sub32 numNextPathIterTimes PATH_ITER_INC_FACTOR
  else
    numNextPathIterTimes

/-- The scheduling skeleton of `path_trace` for one tile, starting from the
tile's `PathIteration_times` budget `P0`: `numNextPathIterTimes` starts at
`P0` (line 2577), `numHostIntervention` at 0 (line 2576); after the loop the
budget for the next tile is adopted.  Returns the loop outcome and the
adopted budget. -/
def path_trace (polls : Nat → List Int) (fuel P0 : Nat) :
    Option (PathTraceLoopResult × Nat) :=
  (path_trace_loop polls fuel 0 P0 P0 0 []).map
    (fun res =>
      (res, adopt_next_path_iteration_times res.numNextPathIterTimes
        res.numHostIntervention))

/-- Poll stream where every entry is already inactive at the first poll. -/
def polls_all_inactive : Nat → List Int := fun _ => [RAY_INACTIVE]

/-- Poll stream with one active poll before convergence. -/
def polls_one_intervention : Nat → List Int :=
  fun r => if r = 0 then [1] else [RAY_INACTIVE]

/-- Poll stream with two active polls before convergence. -/
def polls_two_interventions : Nat → List Int :=
  fun r => if r < 2 then [1] else [RAY_INACTIVE]

/-! ## Program Builder: `load_binary` / `save_binary` / `load_kernels`
(lines 603-655 and 743-818)

Filesystem and OpenCL driver outcomes are opaque; they enter the embedding
as boolean parameters.  What is verified is the control flow of
`load_kernels`: which operations it attempts, in which order, and under
which conditions. -/

/-- The externally visible operations `load_kernels` can attempt. -/
inductive BuildEvent where
  | load_binary_call
  | compile_kernel_call
  | save_binary_call
  | store_program_call
deriving DecidableEq, Repr

/-- Opaque environment outcomes feeding one `load_kernels` call. -/
structure LoadKernelsEnv where
  /-- `device_initialized` flag (line 746). -/
  device_initialized : Bool
  /-- `OpenCLCache::get_program` already held `OCL_DEV_BASE_PROGRAM`. -/
  cached_program : Bool
  /-- `opencl_version_check()` succeeds (line 757). -/
  version_ok : Bool
  /-- `path_exists(clbin)`: the on-disk binary artifact exists (line 780). -/
  clbin_exists : Bool
  /-- `path_read_binary(clbin, binary)` succeeds (line 612). -/
  read_ok : Bool
  /-- `clCreateProgramWithBinary` succeeds (lines 622-628). -/
  create_ok : Bool
  /-- `build_kernel` of the loaded binary succeeds (line 630). -/
  build_ok : Bool
  /-- `compile_kernel` from source succeeds (line 788). -/
  compile_ok : Bool
  /-- `save_binary` (`path_write_binary`) succeeds (line 792). -/
  save_ok : Bool
  /-- the four `clCreateKernel` lookups succeed (lines 801-815). -/
  kernels_ok : Bool
deriving DecidableEq, Repr

/-- `load_binary` (lines 603-634): read the cached binary, create a program
from it, build it; returns false at the first failing step. -/
def load_binary (env : LoadKernelsEnv) : Bool :=
  env.read_ok && env.create_ok && env.build_ok

/-- `load_kernels` (lines 743-818), reduced to its decision skeleton:
overall success plus the ordered list of operations attempted.
The binary artifact is consulted behind `path_exists(clbin) &&
load_binary(...)` (line 780); on any load failure control falls through to
`compile_kernel`, and `save_binary` runs only after a successful compile
(lines 788-793), followed by `OpenCLCache::store_program` (line 797). -/
def load_kernels (env : LoadKernelsEnv) : Bool × List BuildEvent :=
  if !env.device_initialized then (false, [])
  else if env.cached_program then (env.kernels_ok, [])
  else if !env.version_ok then (false, [])
  else if env.clbin_exists && load_binary env then
    (env.kernels_ok, [BuildEvent.load_binary_call, BuildEvent.store_program_call])
  else
    let events0 : List BuildEvent :=
      if env.clbin_exists then [BuildEvent.load_binary_call] else []
    if !env.compile_ok then (false, events0 ++ [BuildEvent.compile_kernel_call])
    else if !env.save_ok then
      (false, events0 ++ [BuildEvent.compile_kernel_call, BuildEvent.save_binary_call])
    else
      (env.kernels_ok,
        events0 ++ [BuildEvent.compile_kernel_call, BuildEvent.save_binary_call,
          BuildEvent.store_program_call])

/-- A concrete environment: cache miss, artifact present and loadable. -/
def env_artifact_hit : LoadKernelsEnv :=
  ⟨true, false, true, true, true, true, true, true, true, true⟩

/-! ## Resource Cache: `OpenCLCache` (lines 139-371)

Handles (`cl_context` / `cl_program`) are opaque pointers, represented by
`Nat`; `NULL` is `none`.  The per-slot and global locks serialize the
operations; what is modelled is each operation's (serialized, atomic)
effect on the cache map. -/

/-- Which member of a `Slot` an operation addresses. -/
inductive SlotMember where
  | context
  | ocl_dev_base_program
  | ocl_dev_megakernel_program
deriving DecidableEq, Repr

/-- One `OpenCLCache::Slot`: a context handle and two program handles,
each NULL until stored (lines 142-168). -/
structure CacheSlot where
  context : Option Nat
  ocl_dev_base_program : Option Nat
  ocl_dev_megakernel_program : Option Nat
deriving DecidableEq, Repr

/-- `Slot()`: all members NULL. -/
def empty_slot : CacheSlot := ⟨none, none, none⟩

/-- Read `slot.*member`. -/
def CacheSlot.read : CacheSlot → SlotMember → Option Nat
  | s, SlotMember.context => s.context
  | s, SlotMember.ocl_dev_base_program => s.ocl_dev_base_program
  | s, SlotMember.ocl_dev_megakernel_program => s.ocl_dev_megakernel_program

/-- `slot.*member = thing`. -/
def CacheSlot.write : CacheSlot → SlotMember → Nat → CacheSlot
  | s, SlotMember.context, h => { s with context := some h }
  | s, SlotMember.ocl_dev_base_program, h => { s with ocl_dev_base_program := some h }
  | s, SlotMember.ocl_dev_megakernel_program, h =>
      { s with ocl_dev_megakernel_program := some h }

/-- The `map<PlatformDevicePair, Slot>` cache, as an association list in
insertion order (keys unique by construction of the operations). -/
abbrev CacheMap := List ((Nat × Nat) × CacheSlot)

/-- Look up the slot of `key` (the `map::find` of the source). -/
def cache_find : CacheMap → (Nat × Nat) → Option CacheSlot
  | [], _ => none
  | e :: l, key => if e.1 == key then some e.2 else cache_find l key

/-- `get_something` (lines 203-238): `map::insert` adds an empty `Slot()`
when the key is absent and returns the existing entry otherwise; the member
is then read under the slot lock.  Returns the member value (NULL = `none`)
and the possibly extended map. -/
def get_something (cache : CacheMap) (key : Nat × Nat) (member : SlotMember) :
    Option Nat × CacheMap :=
  match cache_find cache key with
  | some slot => (slot.read member, cache)
  | none => (none, cache ++ [(key, empty_slot)])

/-- `store_something` (lines 241-265): find the slot — the caller must have
called `get_something` first, so it exists (the source asserts this) — and
set the member.  A store to an absent key is the asserted-against
precondition violation; it leaves the map unchanged here. -/
def store_something (cache : CacheMap) (key : Nat × Nat) (member : SlotMember)
    (thing : Nat) : CacheMap :=
  cache.map (fun e => if e.1 == key then (e.1, e.2.write member thing) else e)

/-- The handles `flush` releases from one slot: the two programs, then the
context, each if non-NULL (lines 360-367). -/
def slot_release_list (s : CacheSlot) : List Nat :=
  s.ocl_dev_base_program.toList ++ s.ocl_dev_megakernel_program.toList
    ++ s.context.toList

/-- `flush` (lines 355-370): release every non-NULL handle and clear the
map. -/
def cache_flush (cache : CacheMap) : CacheMap × List Nat :=
  ([], cache.flatMap (fun e => slot_release_list e.2))

/-- One serialized cache operation. -/
inductive CacheOp where
  | get_op (key : Nat × Nat) (member : SlotMember)
  | store_op (key : Nat × Nat) (member : SlotMember) (thing : Nat)
  | flush_op
deriving DecidableEq, Repr

/-- Effect of one operation: next state and the handles it releases
(`get`/`store` release nothing; retains/releases of handed-out references
are the caller's, outside the cache). -/
def cache_step (cache : CacheMap) : CacheOp → CacheMap × List Nat
  | CacheOp.get_op key member => ((get_something cache key member).2, [])
  | CacheOp.store_op key member thing => (store_something cache key member thing, [])
  | CacheOp.flush_op => cache_flush cache

/-- Run a sequence of serialized operations, accumulating released
handles. -/
def cache_run (cache : CacheMap) : List CacheOp → CacheMap × List Nat
  | [] => (cache, [])
  | op :: ops =>
    let st := cache_step cache op
    let rest := cache_run st.1 ops
    (rest.1, st.2 ++ rest.2)

/-- The member of `key`'s slot, if the slot exists. -/
def lookup_member (cache : CacheMap) (key : Nat × Nat) (member : SlotMember) :
    Option Nat :=
  (cache_find cache key).bind (fun slot => slot.read member)

/-- A one-slot cache, as left by a prior `get_something` miss. -/
def witness_cache : CacheMap := [((1, 2), empty_slot)]

/-- Concrete follow-up operations for the cache witness. -/
def witness_ops : List CacheOp :=
  [CacheOp.get_op (5, 6) SlotMember.ocl_dev_base_program]

end DeviceOpenCL

namespace DeviceOpenCL

/-! ## Theorems -/

/-- Under no underflow, the `size_t` subtraction chain is plain subtraction. -/
theorem sub64_eq_sub {a b : Nat} (ha : a < U64) (hba : b ≤ a) :
    sub64 a b = a - b ∧ a - b < U64 := by
  unfold sub64
  have h1 : a + U64 - b = (a - b) + U64 := by omega
  rw [h1, Nat.add_mod_right, Nat.mod_eq_of_lt (by omega)]
  omega

/-- C2: `get_feasible_global_work_size` returns the device's total
allocatable memory minus the invariable, tile-specific and scene-specific
allocations and the fixed safety margin, integer-divided by the per-work-item
footprint; and the spec's example components substituted into that formula
yield 6000 feasible work items. -/
theorem get_feasible_global_work_size_spec
    (total inv tile scene per : Nat) (htot : total < U64)
    (hfit : inv + tile + scene + DATA_ALLOCATION_MEM_FACTOR ≤ total) :
    get_feasible_global_work_size total inv tile scene per
      = (total - inv - tile - scene - DATA_ALLOCATION_MEM_FACTOR) / per
    ∧ feasible_work_size_formula 1000000 100000 50000 200000 50000 100 = 6000 := by
  constructor
  · unfold get_feasible_global_work_size feasible_work_size_formula
    obtain ⟨e1, l1⟩ := sub64_eq_sub htot (show inv ≤ total by omega)
    rw [e1]
    obtain ⟨e2, l2⟩ := sub64_eq_sub l1 (show tile ≤ total - inv by omega)
    rw [e2]
    obtain ⟨e3, l3⟩ := sub64_eq_sub l2 (show scene ≤ total - inv - tile by omega)
    rw [e3]
    obtain ⟨e4, _⟩ := sub64_eq_sub l3
      (show DATA_ALLOCATION_MEM_FACTOR ≤ total - inv - tile - scene by omega)
    rw [e4]
  · decide

/-- Witness for `get_feasible_global_work_size_spec` at a concrete budget. -/
theorem get_feasible_global_work_size_spec_witness :
    get_feasible_global_work_size 10000000 100000 50000 200000 100
      = (10000000 - 100000 - 50000 - 200000 - DATA_ALLOCATION_MEM_FACTOR) / 100
    ∧ feasible_work_size_formula 1000000 100000 50000 200000 50000 100 = 6000 :=
  get_feasible_global_work_size_spec 10000000 100000 50000 200000 100
    (by decide) (by decide)

/-- C3 (code bug exhibit): when the fixed allocations exceed the total
allocatable memory, the `size_t` subtraction in
`get_feasible_global_work_size` wraps around instead of signalling a
non-positive budget: with total 1000000, invariable allocation 2000000 and
per-thread footprint `2 ^ 50`, the function reports 16383 feasible work
items (instead of none), and `need_to_split_tile` on a 64×64 tile then
reports that no split is needed, so the tile is dispatched over budget. -/
theorem feasible_work_size_wraps_on_exhaustion :
    1000000 < 2000000 + 0 + 0 + DATA_ALLOCATION_MEM_FACTOR
    ∧ get_feasible_global_work_size 1000000 2000000 0 0 1125899906842624 = 16383
    ∧ need_to_split_tile 64 64
        (get_max_render_feasible_tile_size
          (get_feasible_global_work_size 1000000 2000000 0 0 1125899906842624))
        = false := by
  have hf : get_feasible_global_work_size 1000000 2000000 0 0 1125899906842624
      = 16383 := by decide
  refine ⟨by decide, hf, ?_⟩
  rw [hf]
  have hs : Nat.sqrt 16383 = 127 := (Nat.eq_sqrt.2 (by constructor <;> decide)).symm
  unfold get_max_render_feasible_tile_size
  rw [hs]
  decide

/-- `(k : Int).tdiv 64` of a natural cast is natural division by 64. -/
theorem tdiv_cast_64 (k : Nat) :
    ((k : Int)).tdiv (64 : Int) = ((k / 64 : Nat) : Int) := rfl

/-- C10 counterexample: it is not the case that every
`feasible_global_work_size` below one 64×1 granularity cell makes
`get_max_render_feasible_tile_size` return width 0: at input 0 the ceil
branch is taken (its product is 0) and the returned width is 64.  The
embedding is exact at this input: both square roots are 0 and every
product is far below `int` range. -/
theorem get_max_render_feasible_tile_size_zero_cex :
    ¬ (∀ f : Nat, f < 64 → (get_max_render_feasible_tile_size f).1 = 0) := by
  intro h
  have h0 := h 0 (by decide)
  rw [show get_max_render_feasible_tile_size 0 = (64, 0) by
    unfold get_max_render_feasible_tile_size; rw [Nat.sqrt_zero]; decide] at h0
  exact absurd h0 (by decide)

/-- C10 (amended): for every feasible work size of at most `2 ^ 30` — the
range on which the C arithmetic agrees with this embedding:
`(int)sqrt((double)f)` equals the integer square root (which can fail above
`2 ^ 52`) and the ceil-branch `int` product cannot overflow (which can fail
above `2 ^ 31 - 1`) — `get_max_render_feasible_tile_size` returns an
x-extent that is a multiple of 64 and a y-extent that is a multiple of 1,
with product not exceeding the feasible work size, in both the ceil branch
(taken only when its product fits) and the floor fallback; when the budget
is positive but below one 64×1 granularity cell the returned width is 0,
and at budget 0 the result is (64, 0) (product still 0). -/
theorem get_max_render_feasible_tile_size_spec (f : Nat) (hf : f ≤ 2 ^ 30) :
    ((64 : Int) ∣ (get_max_render_feasible_tile_size f).1)
    ∧ ((1 : Int) ∣ (get_max_render_feasible_tile_size f).2)
    ∧ (get_max_render_feasible_tile_size f).1 * (get_max_render_feasible_tile_size f).2
        ≤ (f : Int)
    ∧ (0 < f → f < 64 → (get_max_render_feasible_tile_size f).1 = 0)
    ∧ (f = 0 → get_max_render_feasible_tile_size f = (64, 0)) := by
  rcases Nat.eq_zero_or_pos f with hf | hf
  · subst hf
    rw [show get_max_render_feasible_tile_size 0 = (64, 0) by
      unfold get_max_render_feasible_tile_size; rw [Nat.sqrt_zero]; decide]
    exact ⟨⟨1, by decide⟩, ⟨0, by decide⟩, by decide, by omega, fun _ => rfl⟩
  · -- positive budget: the square root is positive
    have hspos : 0 < Nat.sqrt f := Nat.sqrt_pos.2 hf
    have hsle : Nat.sqrt f * Nat.sqrt f ≤ f := Nat.sqrt_le f
    simp only [get_max_render_feasible_tile_size]
    set k := Nat.sqrt f with hk
    have hcast : ((k : Int) - 1) = ((k - 1 : Nat) : Int) := by omega
    have hy : ((k - 1 : Nat) : Int) + 1 = (k : Int) := by omega
    rw [hcast, tdiv_cast_64, Int.tdiv_one, tdiv_cast_64, Int.tdiv_one, hy]
    split_ifs with hguard
    · -- ceil branch: guarded by the fit test itself
      refine ⟨dvd_mul_left 64 _, one_dvd _, hguard, ?_,
        fun h0 => absurd h0 (by omega)⟩
      -- small positive budget: the ceil product cannot fit, contradiction
      intro h1 h2
      exfalso
      have hk7 : k ≤ 7 := by
        have h63 : Nat.sqrt f ≤ Nat.sqrt 63 := Nat.sqrt_le_sqrt (by omega)
        have h7 : Nat.sqrt 63 = 7 := (Nat.eq_sqrt.2 (by constructor <;> decide)).symm
        omega
      have hd : (k - 1) / 64 = 0 := by omega
      rw [hd] at hguard
      simp only [Nat.cast_zero, zero_add, one_mul, mul_one] at hguard
      have h64k : (64 : Int) * k ≤ (f : Int) := by linarith
      have h64k' : 64 * k ≤ f := by exact_mod_cast h64k
      omega
    · -- floor branch: (k/64)*64 * k ≤ k*k ≤ f
      simp only [mul_one]
      refine ⟨dvd_mul_left 64 _, one_dvd _, ?_, ?_,
        fun h0 => absurd h0 (by omega)⟩
      · have h1 : (k / 64) * 64 * k ≤ k * k :=
          Nat.mul_le_mul_right k (Nat.div_mul_le_self k 64)
        have h2 : (k / 64) * 64 * k ≤ f := le_trans h1 hsle
        exact_mod_cast h2
      · intro _ h2
        have hk7 : k ≤ 7 := by
          have h63 : Nat.sqrt f ≤ Nat.sqrt 63 := Nat.sqrt_le_sqrt (by omega)
          have h7 : Nat.sqrt 63 = 7 := (Nat.eq_sqrt.2 (by constructor <;> decide)).symm
          omega
        have hd : k / 64 = 0 := by omega
        rw [hd]
        decide

/-- Witness for `get_max_render_feasible_tile_size_spec`: at budget 50
(within the exact-arithmetic range, positive, below one granularity cell)
the returned width is 0. -/
theorem get_max_render_feasible_tile_size_spec_witness :
    (50 : Nat) ≤ 2 ^ 30 ∧ (0 : Nat) < 50 ∧ (50 : Nat) < 64
    ∧ (get_max_render_feasible_tile_size 50).1 = 0 :=
  ⟨by decide, by decide, by decide,
    (get_max_render_feasible_tile_size_spec 50 (by decide)).2.2.2.1
      (by decide) (by decide)⟩

/-- `round_up_y` is the identity on positive values. -/
theorem round_up_y_pos (v : Nat) (hv : 0 < v) : round_up_y v = v := by
  simp only [round_up_y, SPLIT_KERNEL_LOCAL_SIZE_Y, Nat.div_one, mul_one]
  omega

/-- C4 counterexample: the halving loop of `get_split_tile_size` does not
terminate for every positive work-item budget: a 1×1 tile with budget 1
rounds up to 64×1 and then halving the width re-rounds it back to 64
forever. -/
theorem get_split_tile_size_diverges_cex :
    ¬ (∀ w h num_global_threads : Nat,
        0 < w → 0 < h → 0 < num_global_threads →
        ∃ fuel, (get_split_tile_size w h num_global_threads fuel).isSome = true) := by
  intro hcl
  obtain ⟨fuel, hfuel⟩ := hcl 1 1 1 (by decide) (by decide) (by decide)
  have stuck : ∀ n, split_tile_size_loop n 1 64 1 = none := by
    intro n
    induction n with
    | zero => rfl
    | succ n ih =>
      rw [split_tile_size_loop]
      have h1 : round_up_x (64 / 2) = 64 := by decide
      rw [if_pos (by decide), if_pos (by decide), h1]
      exact ih
  rw [show get_split_tile_size 1 1 1 fuel = split_tile_size_loop fuel 1 64 1 by
        unfold get_split_tile_size; rw [show round_up_x 1 = 64 by decide,
          show round_up_y 1 = 1 by decide],
      stuck fuel] at hfuel
  exact absurd hfuel (by decide)

/-- Core termination argument for the halving loop: once the budget holds at
least one 64×64 block, the loop finishes within
`clog₂(w/64) + clog₂(h) + 1` iterations (each iteration strictly decreases
that measure, because halving the rounded width maps `64k` to `64⌈k/2⌉`
and halving the height maps `h` to `⌊h/2⌋`). -/
theorem split_tile_size_loop_isSome (num_global_threads : Nat)
    (hN : 4096 ≤ num_global_threads) :
    ∀ m w h, 64 ∣ w → 64 ≤ w → 0 < h →
      Nat.clog 2 (w / 64) + Nat.clog 2 h ≤ m →
      (split_tile_size_loop (m + 1) num_global_threads w h).isSome = true := by
  intro m
  induction m with
  | zero =>
    intro w h hdvd hw hh hm
    -- zero measure forces w = 64 and h = 1, so the loop exits at once
    have hw127 : w ≤ 127 := by
      by_contra hcon
      have h2 : 2 ≤ w / 64 := by omega
      have := @Nat.clog_pos 2 (w / 64) (by norm_num) (by omega)
      omega
    have hweq : w = 64 := by omega
    have hheq : h = 1 := by
      by_contra hcon
      have := @Nat.clog_pos 2 h (by norm_num) (by omega)
      omega
    subst hweq hheq
    rw [split_tile_size_loop, if_neg (by omega)]
    rfl
  | succ m ih =>
    intro w h hdvd hw hh hm
    rw [split_tile_size_loop]
    split_ifs with hcond hbr
    · -- budget exceeded and d_h ≤ d_w: halve the width
      obtain ⟨k, hk⟩ := hdvd
      have hk2 : 2 ≤ k := by
        by_contra hcon
        -- otherwise w = 64 and h ≤ 64, so w*h ≤ 4096 ≤ budget: no iteration
        have hk1 : k = 1 := by omega
        have hweq : w = 64 := by omega
        have hhle : h ≤ 64 := by omega
        have hsmall : w * h ≤ 4096 := by
          rw [hweq]
          omega
        omega
      have hhalf : round_up_x (w / 2) = 64 * ((k + 1) / 2) := by
        simp only [round_up_x, SPLIT_KERNEL_LOCAL_SIZE_X]
        subst hk
        omega
      have hclog : Nat.clog 2 ((k + 1) / 2) + 1 = Nat.clog 2 k := by
        rw [@Nat.clog_of_two_le 2 k (by norm_num) hk2,
          show k + 2 - 1 = k + 1 from by omega]
      have hdivk : w / 64 = k := by omega
      rw [hhalf]
      apply ih
      · exact Dvd.intro _ rfl
      · have h1 : 1 ≤ (k + 1) / 2 := by omega
        omega
      · exact hh
      · rw [Nat.mul_div_cancel_left _ (by norm_num : 0 < 64)]
        rw [hdivk] at hm
        omega
    · -- budget exceeded and d_w < d_h: halve the height
      have hh65 : 65 ≤ h := by omega
      rw [round_up_y_pos _ (by omega)]
      have hmono : Nat.clog 2 (h / 2) ≤ Nat.clog 2 ((h + 1) / 2) :=
        Nat.clog_mono_right 2 (by omega)
      have hclog : Nat.clog 2 h = Nat.clog 2 ((h + 1) / 2) + 1 := by
        rw [@Nat.clog_of_two_le 2 h (by norm_num) (by omega),
          show h + 2 - 1 = h + 1 from by omega]
      have hpos : 0 < Nat.clog 2 h := Nat.clog_pos (by norm_num) (by omega)
      apply ih
      · exact ⟨w / 64, by omega⟩
      · exact hw
      · omega
      · omega
    · rfl

/-- C4 (amended): for every positive requested tile extent and every
work-item budget of at least one granularity-rounded 64×64 block (4096
work items), the halving loop of `get_split_tile_size` terminates, within
`clog₂(w') + clog₂(h') + 1` iterations where `(w', h')` is the requested
extent rounded up to dispatch granularity — an O(log(area)) bound.  (For
budgets below 4096 the loop can run forever, see the counterexample.) -/
theorem get_split_tile_size_terminates (w h num_global_threads : Nat)
    (hw : 0 < w) (hh : 0 < h) (hN : 4096 ≤ num_global_threads) :
    (get_split_tile_size w h num_global_threads
        (Nat.clog 2 (round_up_x w) + Nat.clog 2 (round_up_y h) + 1)).isSome
      = true := by
  unfold get_split_tile_size
  apply split_tile_size_loop_isSome num_global_threads hN
  · exact ⟨(w - 1) / 64 + 1, by simp only [round_up_x, SPLIT_KERNEL_LOCAL_SIZE_X]; ring⟩
  · simp only [round_up_x, SPLIT_KERNEL_LOCAL_SIZE_X]
    omega
  · rw [round_up_y_pos _ hh]
    exact hh
  · have h1 : Nat.clog 2 (round_up_x w / 64) ≤ Nat.clog 2 (round_up_x w) :=
      Nat.clog_mono_right 2 (Nat.div_le_self _ _)
    omega

/-- Witness for `get_split_tile_size_terminates` at the spec's example:
tile 130×130 with budget 8192. -/
theorem get_split_tile_size_terminates_witness :
    (0 : Nat) < 130 ∧ (4096 : Nat) ≤ 8192
    ∧ (get_split_tile_size 130 130 8192
        (Nat.clog 2 (round_up_x 130) + Nat.clog 2 (round_up_y 130) + 1)).isSome
      = true :=
  ⟨by decide, by decide,
    get_split_tile_size_terminates 130 130 8192 (by decide) (by decide) (by decide)⟩

/-- The pipeline loop exits at the first poll whose scan finds no active
ray; every earlier poll (from the starting round on) saw an active entry. -/
theorem path_trace_loop_polls (polls : Nat → List Int) :
    ∀ fuel round cur numNext numInt blocks res,
      path_trace_loop polls fuel round cur numNext numInt blocks = some res →
      round ≤ res.exit_round
      ∧ active_rays_available (polls res.exit_round) = false
      ∧ (∀ j, round ≤ j → j < res.exit_round →
          active_rays_available (polls j) = true) := by
  intro fuel
  induction fuel with
  | zero =>
    intro round cur nn ni blocks res h
    exact absurd h (by simp [path_trace_loop])
  | succ n ih =>
    intro round cur nn ni blocks res h
    rw [path_trace_loop] at h
    by_cases hact : active_rays_available (polls round) = true
    · rw [if_pos hact] at h
      obtain ⟨h1, h2, h3⟩ := ih _ _ _ _ _ _ h
      refine ⟨by omega, h2, ?_⟩
      intro j hj1 hj2
      rcases Nat.eq_or_lt_of_le hj1 with rfl | hlt
      · exact hact
      · exact h3 j hlt hj2
    · rw [if_neg hact] at h
      cases h
      refine ⟨Nat.le_refl _, by simpa using hact, ?_⟩
      intro j hj1 hj2
      exact absurd hj2 (by simp only []; omega)

/-- Counter bookkeeping of the pipeline loop: each intervention adds one to
`numHostIntervention`, adds `PATH_ITER_INC_FACTOR` to
`numNextPathIterTimes`, and makes the following block exactly
`PATH_ITER_INC_FACTOR` rounds long (the `unsigned int` additions do not
wrap under the stated bounds). -/
theorem path_trace_loop_counters (polls : Nat → List Int) :
    ∀ fuel round cur numNext numInt blocks res,
      numNext + fuel * PATH_ITER_INC_FACTOR < U32 →
      numInt + fuel < U32 →
      path_trace_loop polls fuel round cur numNext numInt blocks = some res →
      numInt ≤ res.numHostIntervention
      ∧ res.numHostIntervention ≤ numInt + fuel
      ∧ res.exit_round = round + (res.numHostIntervention - numInt)
      ∧ res.numNextPathIterTimes
          = numNext + (res.numHostIntervention - numInt) * PATH_ITER_INC_FACTOR
      ∧ res.block_sizes
          = blocks ++ cur ::
              List.replicate (res.numHostIntervention - numInt) PATH_ITER_INC_FACTOR := by
  intro fuel
  induction fuel with
  | zero =>
    intro round cur nn ni blocks res hnn hni h
    exact absurd h (by simp [path_trace_loop])
  | succ n ih =>
    intro round cur nn ni blocks res hnn hni h
    rw [path_trace_loop] at h
    by_cases hact : active_rays_available (polls round) = true
    · rw [if_pos hact] at h
      have e1 : (nn + PATH_ITER_INC_FACTOR) % U32 = nn + PATH_ITER_INC_FACTOR :=
        Nat.mod_eq_of_lt (by simp only [PATH_ITER_INC_FACTOR, U32] at hnn ⊢; omega)
      have e2 : (ni + 1) % U32 = ni + 1 :=
        Nat.mod_eq_of_lt (by simp only [U32] at hni ⊢; omega)
      rw [e1, e2] at h
      obtain ⟨g1, g2, g3, g4, g5⟩ := ih (round + 1) PATH_ITER_INC_FACTOR
        (nn + PATH_ITER_INC_FACTOR) (ni + 1) (blocks ++ [cur]) res
        (by simp only [PATH_ITER_INC_FACTOR, U32] at hnn ⊢; omega)
        (by omega) h
      have hd : res.numHostIntervention - ni
          = (res.numHostIntervention - (ni + 1)) + 1 := by omega
      refine ⟨by omega, by omega, by omega, ?_, ?_⟩
      · simp only [PATH_ITER_INC_FACTOR] at g4 ⊢
        omega
      · rw [g5, hd, List.replicate_succ, List.append_assoc]
        simp
    · rw [if_neg hact] at h
      cases h
      refine ⟨Nat.le_refl _, by simp only []; omega, by simp, by simp, by simp⟩

/-- C5: the pipeline dispatch loop of `path_trace` proceeds to the
finalization step (the SumAllRadiance reduction) only when the polled host
copy of the ray-state array has every entry equal to `RAY_INACTIVE`; every
earlier poll saw some entry that was not `RAY_INACTIVE`. -/
theorem path_trace_finalizes_only_when_all_inactive
    (polls : Nat → List Int) (fuel P0 : Nat) (res : PathTraceLoopResult)
    (next : Nat) (h : path_trace polls fuel P0 = some (res, next)) :
    (∀ s ∈ polls res.exit_round, s = RAY_INACTIVE)
    ∧ (∀ j, j < res.exit_round → active_rays_available (polls j) = true) := by
  unfold path_trace at h
  cases hloop : path_trace_loop polls fuel 0 P0 P0 0 [] with
  | none => rw [hloop] at h; exact absurd h (by simp)
  | some r =>
    rw [hloop] at h
    simp only [Option.map_some', Option.some.injEq, Prod.mk.injEq] at h
    obtain ⟨hr, hnext⟩ := h
    rw [hr] at hloop hnext
    obtain ⟨h1, h2, h3⟩ := path_trace_loop_polls polls fuel 0 P0 P0 0 [] res hloop
    constructor
    · intro s hs
      simp only [active_rays_available, List.any_eq_false, decide_eq_true_eq,
        not_not] at h2
      exact h2 s hs
    · intro j hj
      exact h3 j (Nat.zero_le j) hj

/-- Witness for `path_trace_finalizes_only_when_all_inactive` on a stream
with one intervention: the loop exits at poll 1, where the single entry is
inactive, and poll 0 was active. -/
theorem path_trace_finalizes_witness :
    (∀ s ∈ polls_one_intervention 1, s = RAY_INACTIVE)
    ∧ (∀ j, j < 1 → active_rays_available (polls_one_intervention j) = true) := by
  have happ := path_trace_finalizes_only_when_all_inactive polls_one_intervention
    2 8 ⟨1, [8, 8], 16, 1⟩ 16 (by decide)
  simpa using happ

/-- C6: the budget adopted for the next tile is the tile's starting budget
shrunk by one increment (floored at the increment) when no host
intervention occurred, and the total accumulated budget
(start + one increment per intervention) otherwise.  The hypotheses
`PATH_ITER_INC_FACTOR ≤ P0` and `PATH_ITER_INC_FACTOR ∣ P0` hold for every
reachable starting budget (the budget starts at `PATH_ITER_INC_FACTOR` and
both adoption rules preserve them); the bound on `fuel` rules out
`unsigned int` wraparound of the counters. -/
theorem path_trace_next_tile_budget (polls : Nat → List Int)
    (fuel P0 : Nat) (res : PathTraceLoopResult) (next : Nat)
    (hstart : PATH_ITER_INC_FACTOR ≤ P0)
    (hdvd : PATH_ITER_INC_FACTOR ∣ P0)
    (hfuel : P0 + fuel * PATH_ITER_INC_FACTOR < U32)
    (h : path_trace polls fuel P0 = some (res, next)) :
    res.numNextPathIterTimes
      = P0 + res.numHostIntervention * PATH_ITER_INC_FACTOR
    ∧ (res.numHostIntervention = 0 →
        next = max (P0 - PATH_ITER_INC_FACTOR) PATH_ITER_INC_FACTOR)
    ∧ (0 < res.numHostIntervention →
        next = P0 + res.numHostIntervention * PATH_ITER_INC_FACTOR) := by
  unfold path_trace at h
  cases hloop : path_trace_loop polls fuel 0 P0 P0 0 [] with
  | none => rw [hloop] at h; exact absurd h (by simp)
  | some r =>
    rw [hloop] at h
    simp only [Option.map_some', Option.some.injEq, Prod.mk.injEq] at h
    obtain ⟨hr, hnext⟩ := h
    rw [hr] at hloop hnext
    obtain ⟨g1, g2, g3, g4, g5⟩ := path_trace_loop_counters polls fuel 0 P0 P0 0 [] res
      hfuel
      (by simp only [PATH_ITER_INC_FACTOR, U32] at hfuel ⊢; omega)
      hloop
    have hP32 : P0 < U32 := by
      simp only [PATH_ITER_INC_FACTOR, U32] at hfuel ⊢
      omega
    have hnn : res.numNextPathIterTimes
        = P0 + res.numHostIntervention * PATH_ITER_INC_FACTOR := by
      simpa using g4
    refine ⟨hnn, ?_, ?_⟩
    · intro h0
      have hsub : sub32 P0 PATH_ITER_INC_FACTOR = P0 - PATH_ITER_INC_FACTOR := by
        unfold sub32
        have hswap : P0 + U32 - PATH_ITER_INC_FACTOR
            = (P0 - PATH_ITER_INC_FACTOR) + U32 := by
          simp only [PATH_ITER_INC_FACTOR, U32] at hstart ⊢
          omega
        rw [hswap, Nat.add_mod_right]
        exact Nat.mod_eq_of_lt (by omega)
      rw [← hnext, hnn, h0]
      simp only [Nat.zero_mul, Nat.add_zero]
      unfold adopt_next_path_iteration_times
      rw [if_pos rfl, hsub]
      obtain ⟨c, rfl⟩ := hdvd
      simp only [PATH_ITER_INC_FACTOR] at hstart ⊢
      split_ifs with hz
      · omega
      · omega
    · intro hpos
      rw [← hnext, hnn]
      unfold adopt_next_path_iteration_times
      rw [if_neg (by omega)]

/-- Witness for `path_trace_next_tile_budget`: a tile starting with budget
16 that converges at the first poll adopts 8 = max(16-8, 8) for the next
tile. -/
theorem path_trace_next_tile_budget_witness :
    path_trace polls_all_inactive 1 16 = some (⟨0, [16], 16, 0⟩, 8)
    ∧ (8 : Nat) = max (16 - PATH_ITER_INC_FACTOR) PATH_ITER_INC_FACTOR := by
  refine ⟨by decide, ?_⟩
  exact (path_trace_next_tile_budget polls_all_inactive 1 16 ⟨0, [16], 16, 0⟩ 8
    (by decide) (by decide) (by decide) (by decide)).2.1 rfl

/-- C7 counterexample: it is not the case that each host intervention grows
the iteration budget used for the next block within the same tile: with a
starting budget of 16 and two interventions, the executed block sizes are
16, 8, 8 — the block after the first intervention runs fewer rounds, not
more. -/
theorem path_trace_block_growth_cex :
    ¬ (∀ res next,
        path_trace polls_two_interventions 3 16 = some (res, next) →
        ∀ j, (hj : j + 1 < res.block_sizes.length) →
          res.block_sizes.get ⟨j, by omega⟩
            < res.block_sizes.get ⟨j + 1, hj⟩) := by
  intro hcl
  have h := hcl ⟨2, [16, 8, 8], 32, 2⟩ 32 (by decide) 0 (by decide)
  exact absurd h (by decide)

/-- C7 (amended): within a tile, each poll that finds a non-INACTIVE entry
increments the intervention counter, adds one fixed increment to the budget
carried to the next tile (`numNextPathIterTimes`), and sets the next block
to exactly `PATH_ITER_INC_FACTOR` pipeline rounds: the executed block sizes
are the starting budget followed by one fixed-size block per intervention
(and the loop exits at poll number `numHostIntervention`). -/
theorem path_trace_intervention_effect (polls : Nat → List Int)
    (fuel P0 : Nat) (res : PathTraceLoopResult) (next : Nat)
    (hfuel : P0 + fuel * PATH_ITER_INC_FACTOR < U32)
    (h : path_trace polls fuel P0 = some (res, next)) :
    res.block_sizes
      = P0 :: List.replicate res.numHostIntervention PATH_ITER_INC_FACTOR
    ∧ res.numNextPathIterTimes
        = P0 + res.numHostIntervention * PATH_ITER_INC_FACTOR
    ∧ res.exit_round = res.numHostIntervention := by
  unfold path_trace at h
  cases hloop : path_trace_loop polls fuel 0 P0 P0 0 [] with
  | none => rw [hloop] at h; exact absurd h (by simp)
  | some r =>
    rw [hloop] at h
    simp only [Option.map_some', Option.some.injEq, Prod.mk.injEq] at h
    obtain ⟨hr, hnext⟩ := h
    rw [hr] at hloop hnext
    obtain ⟨g1, g2, g3, g4, g5⟩ := path_trace_loop_counters polls fuel 0 P0 P0 0 [] res
      hfuel
      (by simp only [PATH_ITER_INC_FACTOR, U32] at hfuel ⊢; omega)
      hloop
    refine ⟨by simpa using g5, by simpa using g4, by omega⟩

/-- Witness for `path_trace_intervention_effect`: two interventions with
starting budget 16 give blocks 16, 8, 8, accumulated budget 32 and exit at
poll 2. -/
theorem path_trace_intervention_effect_witness :
    ([16, 8, 8] : List Nat)
      = 16 :: List.replicate 2 PATH_ITER_INC_FACTOR
    ∧ (32 : Nat) = 16 + 2 * PATH_ITER_INC_FACTOR
    ∧ (2 : Nat) = 2 :=
  path_trace_intervention_effect polls_two_interventions 3 16
    ⟨2, [16, 8, 8], 32, 2⟩ 32 (by decide) (by decide)

/-- C8: on a cache miss with a healthy device, `load_kernels` attempts the
on-disk binary artifact iff the artifact file exists; any failure while
reading it, creating the program from it, or building it falls through to
compiling from source; and `save_binary` runs only after `compile_kernel`
succeeded (never on the artifact-load path). -/
theorem load_kernels_artifact_flow (env : LoadKernelsEnv)
    (hdi : env.device_initialized = true)
    (hcp : env.cached_program = false)
    (hvo : env.version_ok = true) :
    (BuildEvent.load_binary_call ∈ (load_kernels env).2 ↔ env.clbin_exists = true)
    ∧ ((env.clbin_exists = false ∨ load_binary env = false) →
        BuildEvent.compile_kernel_call ∈ (load_kernels env).2)
    ∧ (env.clbin_exists = true → load_binary env = true →
        BuildEvent.compile_kernel_call ∉ (load_kernels env).2)
    ∧ (BuildEvent.save_binary_call ∈ (load_kernels env).2 →
        env.compile_ok = true ∧ BuildEvent.compile_kernel_call ∈ (load_kernels env).2) := by
  rcases env with ⟨di, cp, vo, ce, ro, cr, bo, co, so, ko⟩
  simp only at hdi hcp hvo
  subst hdi hcp hvo
  revert ce ro cr bo co so ko
  decide

/-- Witness for `load_kernels_artifact_flow` on a concrete environment
(cache miss, artifact present and loadable). -/
theorem load_kernels_artifact_flow_witness :
    (BuildEvent.load_binary_call ∈ (load_kernels env_artifact_hit).2
      ↔ env_artifact_hit.clbin_exists = true)
    ∧ ((env_artifact_hit.clbin_exists = false ∨ load_binary env_artifact_hit = false) →
        BuildEvent.compile_kernel_call ∈ (load_kernels env_artifact_hit).2)
    ∧ (env_artifact_hit.clbin_exists = true → load_binary env_artifact_hit = true →
        BuildEvent.compile_kernel_call ∉ (load_kernels env_artifact_hit).2)
    ∧ (BuildEvent.save_binary_call ∈ (load_kernels env_artifact_hit).2 →
        env_artifact_hit.compile_ok = true
        ∧ BuildEvent.compile_kernel_call ∈ (load_kernels env_artifact_hit).2) :=
  load_kernels_artifact_flow env_artifact_hit rfl rfl rfl

/-- Writing one slot member leaves every other member unchanged. -/
theorem CacheSlot.read_write_other (s : CacheSlot) (m m' : SlotMember)
    (h : Nat) (hne : m' ≠ m) : (s.write m' h).read m = s.read m := by
  cases s
  cases m <;> cases m' <;> first
    | rfl
    | exact absurd rfl hne

/-- Writing a slot member then reading it yields the written handle. -/
theorem CacheSlot.read_write_same (s : CacheSlot) (m : SlotMember) (h : Nat) :
    (s.write m h).read m = some h := by
  cases s
  cases m <;> rfl

/-- `cache_find` distributes over appending slots: the earlier entries win. -/
theorem cache_find_append (l l2 : CacheMap) (key : Nat × Nat) :
    cache_find (l ++ l2) key = (cache_find l key).or (cache_find l2 key) := by
  induction l with
  | nil => simp [cache_find]
  | cons e l ih =>
    cases hek : (e.1 == key) with
    | false => simp [cache_find, hek, ih]
    | true => simp [cache_find, hek]

/-- `store_something` transforms the looked-up slot of any key pointwise:
the stored key's slot gets the member written, other slots are unchanged. -/
theorem cache_find_store (cache : CacheMap) (key' : Nat × Nat)
    (member : SlotMember) (thing : Nat) (key : Nat × Nat) :
    cache_find (store_something cache key' member thing) key
      = (cache_find cache key).map
          (fun slot => if key == key' then slot.write member thing else slot) := by
  induction cache with
  | nil => rfl
  | cons e l ih =>
    simp only [store_something, List.map_cons] at ih ⊢
    cases hek' : (e.1 == key') with
    | false =>
      cases hek : (e.1 == key) with
      | false => simpa [cache_find, hek] using ih
      | true =>
        have h1 : e.1 = key := by simpa using hek
        have hkk : (key == key') = false := by
          rw [← h1]
          exact hek'
        simp [cache_find, hek, hkk]
    | true =>
      cases hek : (e.1 == key) with
      | false => simpa [cache_find, hek] using ih
      | true =>
        have h1 : e.1 = key := by simpa using hek
        have h2 : e.1 = key' := by simpa using hek'
        have hkk : (key == key') = true := by
          rw [← h1, ← h2]
          simp
        simp [cache_find, hek, hkk]

/-- A populated member survives any single non-flush operation that is not
a store to that same member, and such an operation releases nothing. -/
theorem cache_step_preserves (cache : CacheMap) (key : Nat × Nat)
    (member : SlotMember) (thing : Nat) (op : CacheOp)
    (hlk : lookup_member cache key member = some thing)
    (hop1 : op ≠ CacheOp.flush_op)
    (hop2 : ∀ t, op ≠ CacheOp.store_op key member t) :
    lookup_member (cache_step cache op).1 key member = some thing
    ∧ (cache_step cache op).2 = [] := by
  cases op with
  | flush_op => exact absurd rfl hop1
  | get_op key' member' =>
    refine ⟨?_, rfl⟩
    cases hfind : cache_find cache key' with
    | some slot =>
      simp only [cache_step, get_something, hfind]
      exact hlk
    | none =>
      -- a fresh empty slot is appended for key'; the lookup of key is
      -- resolved in the original prefix because its slot exists there
      simp only [cache_step, get_something, hfind]
      unfold lookup_member at hlk ⊢
      rw [cache_find_append]
      cases hfe : cache_find cache key with
      | none => rw [hfe] at hlk; exact absurd hlk (by simp)
      | some slot =>
        rw [hfe] at hlk
        simpa using hlk
  | store_op key' member' t =>
    refine ⟨?_, rfl⟩
    simp only [cache_step]
    unfold lookup_member at hlk ⊢
    rw [cache_find_store]
    cases hfe : cache_find cache key with
    | none => rw [hfe] at hlk; exact absurd hlk (by simp)
    | some slot =>
      rw [hfe] at hlk
      simp only [Option.some_bind] at hlk
      simp only [Option.map_some', Option.some_bind]
      by_cases hk : (key == key') = true
      · rw [if_pos hk]
        have hmm : member' ≠ member := by
          intro hcon
          have hkk : key = key' := by simpa using hk
          subst hcon hkk
          exact absurd rfl (hop2 t)
        rw [CacheSlot.read_write_other slot member member' t hmm]
        exact hlk
      · rw [if_neg hk]
        exact hlk

/-- A populated member survives any flush-free, re-store-free operation
sequence, which also releases nothing. -/
theorem cache_run_preserves (key : Nat × Nat) (member : SlotMember)
    (thing : Nat) :
    ∀ (ops : List CacheOp) (cache : CacheMap),
      lookup_member cache key member = some thing →
      (∀ op ∈ ops, op ≠ CacheOp.flush_op ∧ ∀ t, op ≠ CacheOp.store_op key member t) →
      lookup_member (cache_run cache ops).1 key member = some thing
      ∧ (cache_run cache ops).2 = [] := by
  intro ops
  induction ops with
  | nil => intro cache hlk _; exact ⟨hlk, rfl⟩
  | cons op ops ih =>
    intro cache hlk hops
    obtain ⟨hop1, hop2⟩ := hops op (List.mem_cons_self op ops)
    obtain ⟨hstep, hrel⟩ := cache_step_preserves cache key member thing op hlk hop1 hop2
    obtain ⟨hrun, hrelrun⟩ := ih (cache_step cache op).1 hstep
      (fun o ho => hops o (List.mem_cons_of_mem op ho))
    refine ⟨hrun, ?_⟩
    simp only [cache_run]
    rw [hrel, hrelrun]
    rfl

/-- C9: once `store_something` has placed a handle into an existing slot's
member, every later lookup and `get_something` of that member for the same
key returns that same handle across any sequence of cache operations that
contains no flush and no (precondition-violating) second store to the same
member; and no such sequence releases any cached resource — only `flush`
does.  The slot-exists hypothesis is the source's documented store
precondition ("you MUST have tried to get the item before storing"). -/
theorem cache_member_persistent (cache : CacheMap) (key : Nat × Nat)
    (member : SlotMember) (thing : Nat) (ops : List CacheOp)
    (hpresent : (cache_find cache key).isSome = true)
    (hops : ∀ op ∈ ops,
      op ≠ CacheOp.flush_op ∧ ∀ t, op ≠ CacheOp.store_op key member t) :
    lookup_member (store_something cache key member thing) key member = some thing
    ∧ lookup_member (cache_run (store_something cache key member thing) ops).1
        key member = some thing
    ∧ (get_something (cache_run (store_something cache key member thing) ops).1
        key member).1 = some thing
    ∧ (cache_run (store_something cache key member thing) ops).2 = [] := by
  have hstored : lookup_member (store_something cache key member thing) key member
      = some thing := by
    unfold lookup_member
    rw [cache_find_store]
    cases hfe : cache_find cache key with
    | none => rw [hfe] at hpresent; exact absurd hpresent (by simp)
    | some slot =>
      simp only [Option.map_some', beq_self_eq_true, if_pos rfl, Option.some_bind]
      exact CacheSlot.read_write_same slot member thing
  obtain ⟨hrun, hrel⟩ := cache_run_preserves key member thing ops
    (store_something cache key member thing) hstored hops
  refine ⟨hstored, hrun, ?_, hrel⟩
  unfold get_something
  unfold lookup_member at hrun
  cases hfe : cache_find (cache_run (store_something cache key member thing) ops).1 key with
  | none => rw [hfe] at hrun; exact absurd hrun (by simp)
  | some slot =>
    rw [hfe] at hrun
    simpa using hrun

/-- Witness for `cache_member_persistent`: store handle 5 into the base
program member of slot (1,2), then run a `get` on an unrelated key. -/
theorem cache_member_persistent_witness :
    lookup_member (store_something witness_cache (1, 2)
      SlotMember.ocl_dev_base_program 5) (1, 2) SlotMember.ocl_dev_base_program
      = some 5
    ∧ lookup_member (cache_run (store_something witness_cache (1, 2)
        SlotMember.ocl_dev_base_program 5) witness_ops).1 (1, 2)
        SlotMember.ocl_dev_base_program = some 5
    ∧ (get_something (cache_run (store_something witness_cache (1, 2)
        SlotMember.ocl_dev_base_program 5) witness_ops).1 (1, 2)
        SlotMember.ocl_dev_base_program).1 = some 5
    ∧ (cache_run (store_something witness_cache (1, 2)
        SlotMember.ocl_dev_base_program 5) witness_ops).2 = [] :=
  cache_member_persistent witness_cache (1, 2) SlotMember.ocl_dev_base_program 5
    witness_ops (by decide)
    (by
      intro op hop
      simp only [witness_ops, List.mem_singleton] at hop
      subst hop
      exact ⟨by decide, fun t h => nomatch h⟩)

/-- Length and indexing of `split_tiles`. -/
theorem split_tiles_length (rt : RenderTile) (sx sy : Nat) :
    (split_tiles rt sx sy).length = num_tiles_x rt sx * num_tiles_y rt sy := by
  simp [split_tiles]

/-- Entry `i` of `split_tiles` is the sub-tile at column `i % num_tiles_x`,
row `i / num_tiles_x`. -/
theorem split_tiles_get (rt : RenderTile) (sx sy i : Nat)
    (hi : i < (split_tiles rt sx sy).length) :
    (split_tiles rt sx sy).get ⟨i, hi⟩
      = split_sub_tile rt sx sy (i % num_tiles_x rt sx) (i / num_tiles_x rt sx) := by
  simp [split_tiles]

/-- 1-D strip decomposition: for a segment of extent `w` starting at `X`,
cut into strips of size `s` with the last strip (index `(w-1)/s`) shrunk to
the remainder, a point `p` lies in strip `t` iff it lies in the segment and
`t` is the strip index `(p - X) / s`. -/
theorem strip_shift_iff (X w s p t : Nat) (hw : 0 < w) (hs : 0 < s)
    (ht : t ≤ (w - 1) / s) :
    (X + t * s ≤ p ∧ p < X + t * s + (if t = (w - 1) / s then w - t * s else s))
      ↔ (X ≤ p ∧ p < X + w ∧ t = (p - X) / s) := by
  have hC : (w - 1) / s * s ≤ w - 1 := Nat.div_mul_le_self _ _
  have hD : w ≤ (w - 1) / s * s + s := by
    have h1 : w - 1 < ((w - 1) / s + 1) * s := (Nat.div_lt_iff_lt_mul hs).1 (by omega)
    have h2 : ((w - 1) / s + 1) * s = (w - 1) / s * s + s := by ring
    omega
  have hA : (p - X) / s * s ≤ p - X := Nat.div_mul_le_self _ _
  have hB : p - X < (p - X) / s * s + s := by
    have h1 : p - X < ((p - X) / s + 1) * s := (Nat.div_lt_iff_lt_mul hs).1 (by omega)
    have h2 : ((p - X) / s + 1) * s = (p - X) / s * s + s := by ring
    omega
  constructor
  · rintro ⟨h1, h2⟩
    split_ifs at h2 with hb
    · -- border strip
      have hts : t * s ≤ w - 1 := by
        rw [hb]
        exact hC
      have hds : w ≤ t * s + s := by
        rw [hb]
        exact hD
      have he : (t + 1) * s = t * s + s := by ring
      refine ⟨by omega, by omega, ?_⟩
      have hle : t * s ≤ p - X := by omega
      have hlt : p - X < (t + 1) * s := by omega
      exact (Nat.div_eq_of_lt_le hle hlt).symm
    · have hlt' : t + 1 ≤ (w - 1) / s := by omega
      have hmul : (t + 1) * s ≤ (w - 1) / s * s := Nat.mul_le_mul_right s hlt'
      have he : (t + 1) * s = t * s + s := by ring
      refine ⟨by omega, by omega, ?_⟩
      have hle : t * s ≤ p - X := by omega
      have hlt : p - X < (t + 1) * s := by omega
      exact (Nat.div_eq_of_lt_le hle hlt).symm
  · rintro ⟨h1, h2, rfl⟩
    refine ⟨by omega, ?_⟩
    split_ifs with hb
    · have hq : (p - X) / s * s ≤ w - 1 := by rw [hb]; exact hC
      omega
    · omega

/-- The remainder strip of a 1-D split is nonempty and no wider than a
regular strip. -/
theorem border_strip_bounds (w s : Nat) (hw : 0 < w) (hs : 0 < s) :
    0 < w - (w - 1) / s * s ∧ w - (w - 1) / s * s ≤ s := by
  have hC : (w - 1) / s * s ≤ w - 1 := Nat.div_mul_le_self _ _
  have hD : w ≤ (w - 1) / s * s + s := by
    have h1 : w - 1 < ((w - 1) / s + 1) * s := (Nat.div_lt_iff_lt_mul hs).1 (by omega)
    have h2 : ((w - 1) / s + 1) * s = (w - 1) / s * s + s := by ring
    omega
  omega

/-- Membership in the sub-tile at grid position (tx, ty): exactly the
pixels of the original tile whose strip indices are (tx, ty). -/
theorem sub_tile_contains_iff (rt : RenderTile) (sx sy tx ty : Nat)
    (hw : 0 < rt.w) (hh : 0 < rt.h) (hsx : 0 < sx) (hsy : 0 < sy)
    (htx : tx ≤ (rt.w - 1) / sx) (hty : ty ≤ (rt.h - 1) / sy) (px py : Nat) :
    tile_contains (split_sub_tile rt sx sy tx ty) px py
      ↔ (rt.x ≤ px ∧ px < rt.x + rt.w ∧ tx = (px - rt.x) / sx
        ∧ rt.y ≤ py ∧ py < rt.y + rt.h ∧ ty = (py - rt.y) / sy) := by
  have hx := strip_shift_iff rt.x rt.w sx px tx hw hsx htx
  have hy := strip_shift_iff rt.y rt.h sy py ty hh hsy hty
  simp only [tile_contains, split_sub_tile, num_tiles_x, num_tiles_y,
    Nat.add_sub_cancel]
  constructor
  · rintro ⟨h1, h2, h3, h4⟩
    obtain ⟨a1, a2, a3⟩ := hx.1 ⟨h1, h2⟩
    obtain ⟨b1, b2, b3⟩ := hy.1 ⟨h3, h4⟩
    exact ⟨a1, a2, a3, b1, b2, b3⟩
  · rintro ⟨a1, a2, a3, b1, b2, b3⟩
    obtain ⟨h1, h2⟩ := hx.2 ⟨a1, a2, a3⟩
    obtain ⟨h3, h4⟩ := hy.2 ⟨b1, b2, b3⟩
    exact ⟨h1, h2, h3, h4⟩

/-- C1: for a tile of positive extent and positive split tile sizes,
`split_tiles` partitions the tile exactly: it returns
`ceil(w/sx) * ceil(h/sy)` sub-tiles in row-major order (entry `i` sits at
column `i % num_tiles_x`, row `i / num_tiles_x` of the grid, offset from
the original origin by whole strips); every non-border sub-tile has extent
`(sx, sy)` and border sub-tiles are shrunk to exactly the (positive)
remainder; and the sub-tiles' pixel rectangles are pairwise disjoint with
union equal to the original tile's rectangle. -/
theorem split_tiles_partition (rt : RenderTile) (sx sy : Nat)
    (hw : 0 < rt.w) (hh : 0 < rt.h) (hsx : 0 < sx) (hsy : 0 < sy) :
    (split_tiles rt sx sy).length = ((rt.w + sx - 1) / sx) * ((rt.h + sy - 1) / sy)
    ∧ (∀ i, (hi : i < (split_tiles rt sx sy).length) →
        ((split_tiles rt sx sy).get ⟨i, hi⟩).x
            = rt.x + (i % num_tiles_x rt sx) * sx
        ∧ ((split_tiles rt sx sy).get ⟨i, hi⟩).y
            = rt.y + (i / num_tiles_x rt sx) * sy
        ∧ (i % num_tiles_x rt sx ≠ num_tiles_x rt sx - 1 →
            ((split_tiles rt sx sy).get ⟨i, hi⟩).w = sx)
        ∧ (i % num_tiles_x rt sx = num_tiles_x rt sx - 1 →
            ((split_tiles rt sx sy).get ⟨i, hi⟩).w
                = rt.w - (num_tiles_x rt sx - 1) * sx
            ∧ 0 < ((split_tiles rt sx sy).get ⟨i, hi⟩).w
            ∧ ((split_tiles rt sx sy).get ⟨i, hi⟩).w ≤ sx)
        ∧ (i / num_tiles_x rt sx ≠ num_tiles_y rt sy - 1 →
            ((split_tiles rt sx sy).get ⟨i, hi⟩).h = sy)
        ∧ (i / num_tiles_x rt sx = num_tiles_y rt sy - 1 →
            ((split_tiles rt sx sy).get ⟨i, hi⟩).h
                = rt.h - (num_tiles_y rt sy - 1) * sy
            ∧ 0 < ((split_tiles rt sx sy).get ⟨i, hi⟩).h
            ∧ ((split_tiles rt sx sy).get ⟨i, hi⟩).h ≤ sy))
    ∧ (∀ i j, (hi : i < (split_tiles rt sx sy).length) →
        (hj : j < (split_tiles rt sx sy).length) → i ≠ j →
        ∀ px py, ¬(tile_contains ((split_tiles rt sx sy).get ⟨i, hi⟩) px py
          ∧ tile_contains ((split_tiles rt sx sy).get ⟨j, hj⟩) px py))
    ∧ (∀ px py, tile_contains rt px py
        ↔ ∃ i, ∃ (hi : i < (split_tiles rt sx sy).length),
            tile_contains ((split_tiles rt sx sy).get ⟨i, hi⟩) px py) := by
  have hNX : 0 < num_tiles_x rt sx := Nat.succ_pos _
  have hNY : 0 < num_tiles_y rt sy := Nat.succ_pos _
  have hlen := split_tiles_length rt sx sy
  -- strip-index bounds for any in-range entry index
  have hbounds : ∀ i, i < (split_tiles rt sx sy).length →
      i % num_tiles_x rt sx ≤ (rt.w - 1) / sx
      ∧ i / num_tiles_x rt sx ≤ (rt.h - 1) / sy := by
    intro i hi
    have h1 : i % num_tiles_x rt sx < num_tiles_x rt sx := Nat.mod_lt i hNX
    have h2 : i / num_tiles_x rt sx < num_tiles_y rt sy := by
      rw [Nat.div_lt_iff_lt_mul hNX]
      rw [hlen] at hi
      rw [Nat.mul_comm]
      exact hi
    have e1 : num_tiles_x rt sx = (rt.w - 1) / sx + 1 := rfl
    have e2 : num_tiles_y rt sy = (rt.h - 1) / sy + 1 := rfl
    omega
  refine ⟨?_, ?_, ?_, ?_⟩
  · -- count: ceil(w / sx) * ceil(h / sy)
    rw [hlen, show rt.w + sx - 1 = (rt.w - 1) + sx from by omega,
      show rt.h + sy - 1 = (rt.h - 1) + sy from by omega,
      Nat.add_div_right _ hsx, Nat.add_div_right _ hsy]
    rfl
  · -- row-major order and exact shapes
    intro i hi
    obtain ⟨htx, hty⟩ := hbounds i hi
    rw [split_tiles_get]
    obtain ⟨hwpos, hwle⟩ := border_strip_bounds rt.w sx hw hsx
    obtain ⟨hhpos, hhle⟩ := border_strip_bounds rt.h sy hh hsy
    have hbx : num_tiles_x rt sx - 1 = (rt.w - 1) / sx := by
      unfold num_tiles_x
      exact Nat.add_sub_cancel _ _
    have hby : num_tiles_y rt sy - 1 = (rt.h - 1) / sy := by
      unfold num_tiles_y
      exact Nat.add_sub_cancel _ _
    refine ⟨rfl, rfl, ?_, ?_, ?_, ?_⟩
    · intro hne
      simp only [split_sub_tile]
      rw [if_neg hne]
    · intro heq
      have hwx : (split_sub_tile rt sx sy (i % num_tiles_x rt sx)
          (i / num_tiles_x rt sx)).w = rt.w - (rt.w - 1) / sx * sx := by
        simp only [split_sub_tile]
        rw [if_pos heq, heq, hbx]
      rw [hwx, hbx]
      exact ⟨rfl, hwpos, hwle⟩
    · intro hne
      simp only [split_sub_tile]
      rw [if_neg hne]
    · intro heq
      have hhx : (split_sub_tile rt sx sy (i % num_tiles_x rt sx)
          (i / num_tiles_x rt sx)).h = rt.h - (rt.h - 1) / sy * sy := by
        simp only [split_sub_tile]
        rw [if_pos heq, heq, hby]
      rw [hhx, hby]
      exact ⟨rfl, hhpos, hhle⟩
  · -- pairwise disjointness
    intro i j hi hj hne px py hcon
    obtain ⟨hpi, hpj⟩ := hcon
    obtain ⟨htxi, htyi⟩ := hbounds i hi
    obtain ⟨htxj, htyj⟩ := hbounds j hj
    rw [split_tiles_get] at hpi hpj
    obtain ⟨_, _, hxi, _, _, hyi⟩ :=
      (sub_tile_contains_iff rt sx sy _ _ hw hh hsx hsy htxi htyi px py).1 hpi
    obtain ⟨_, _, hxj, _, _, hyj⟩ :=
      (sub_tile_contains_iff rt sx sy _ _ hw hh hsx hsy htxj htyj px py).1 hpj
    have hmodeq : i % num_tiles_x rt sx = j % num_tiles_x rt sx := by omega
    have hdiveq : i / num_tiles_x rt sx = j / num_tiles_x rt sx := by omega
    have hdi := Nat.div_add_mod i (num_tiles_x rt sx)
    have hdj := Nat.div_add_mod j (num_tiles_x rt sx)
    rw [hmodeq, hdiveq] at hdi
    omega
  · -- the union is exactly the original rectangle
    intro px py
    constructor
    · intro hp
      obtain ⟨hx1, hx2, hy1, hy2⟩ := hp
      have htxlt : (px - rt.x) / sx < num_tiles_x rt sx := by
        have hdm := @Nat.div_le_div_right (px - rt.x) (rt.w - 1) sx (by omega)
        unfold num_tiles_x
        omega
      have htylt : (py - rt.y) / sy < num_tiles_y rt sy := by
        have hdm := @Nat.div_le_div_right (py - rt.y) (rt.h - 1) sy (by omega)
        unfold num_tiles_y
        omega
      have hilt : (px - rt.x) / sx + num_tiles_x rt sx * ((py - rt.y) / sy)
          < (split_tiles rt sx sy).length := by
        rw [hlen]
        have h1 : num_tiles_x rt sx * ((py - rt.y) / sy + 1)
            ≤ num_tiles_x rt sx * num_tiles_y rt sy :=
          Nat.mul_le_mul_left _ htylt
        have h2 : num_tiles_x rt sx * ((py - rt.y) / sy + 1)
            = num_tiles_x rt sx * ((py - rt.y) / sy) + num_tiles_x rt sx := by
          ring
        omega
      refine ⟨(px - rt.x) / sx + num_tiles_x rt sx * ((py - rt.y) / sy), hilt, ?_⟩
      rw [split_tiles_get]
      have hmod : ((px - rt.x) / sx + num_tiles_x rt sx * ((py - rt.y) / sy))
          % num_tiles_x rt sx = (px - rt.x) / sx := by
        rw [Nat.add_mul_mod_self_left]
        exact Nat.mod_eq_of_lt htxlt
      have hdiv : ((px - rt.x) / sx + num_tiles_x rt sx * ((py - rt.y) / sy))
          / num_tiles_x rt sx = (py - rt.y) / sy := by
        rw [Nat.add_mul_div_left _ _ hNX, Nat.div_eq_of_lt htxlt, Nat.zero_add]
      rw [hmod, hdiv]
      have htx : (px - rt.x) / sx ≤ (rt.w - 1) / sx := by
        unfold num_tiles_x at htxlt
        omega
      have hty : (py - rt.y) / sy ≤ (rt.h - 1) / sy := by
        unfold num_tiles_y at htylt
        omega
      exact (sub_tile_contains_iff rt sx sy _ _ hw hh hsx hsy htx hty px py).2
        ⟨hx1, hx2, rfl, hy1, hy2, rfl⟩
    · rintro ⟨i, hi, hp⟩
      obtain ⟨htx, hty⟩ := hbounds i hi
      rw [split_tiles_get] at hp
      obtain ⟨a1, a2, _, b1, b2, _⟩ :=
        (sub_tile_contains_iff rt sx sy _ _ hw hh hsx hsy htx hty px py).1 hp
      exact ⟨a1, a2, b1, b2⟩

/-- Witness for `split_tiles_partition` on the spec's example: a 130×130
tile split into 64×65 sub-tiles gives ceil(130/64) * ceil(130/65) = 3 * 2
sub-tiles. -/
theorem split_tiles_partition_witness :
    (split_tiles example_tile 64 65).length
      = ((130 + 64 - 1) / 64) * ((130 + 65 - 1) / 65) :=
  (split_tiles_partition example_tile 64 65
    (by decide) (by decide) (by decide) (by decide)).1

end DeviceOpenCL
